import Mathlib

/-!
Verification of the `magnumopus` in-silico PCR pipeline
(repository `DNA-Sequence-Analysis`).

The development shallowly embeds the Python sources:
* `magnumopus/scripts/ispcr.py` — hit filtering (`filter_blast`), the
  sort performed in `step_one`, hit pairing (`identify_paired_hits`)
  and the coordinate-window (bed) computation of `get_amplicons`;
* `magnumopus/magop.py` — the per-amplicon orientation-normalisation
  loop of `main` (reverse complement and the score comparison).

Python strings are embedded as `List Char`; Python exceptions
(`IndexError`, `ValueError`, `KeyError`) are embedded as the error
side of `Except PyErr`.  All definitions are executable and reduce in
the kernel, so concrete runs can be settled by `rfl`/`decide`.
-/

namespace Magnumopus

/-- Embedding of a Python string: a list of characters. -/
abbrev PyStr := List Char

/-- The Python exceptions that the embedded code can raise.  An
uncaught exception aborts the Python process; in the embedding it
surfaces as the `Except.error` side of the result. -/
inductive PyErr where
  | indexError
  | valueError
  | keyError
deriving DecidableEq

/-- Embedding of Python `text.split("\n")`: split at every newline
character, keeping empty pieces. -/
def splitOnNl : PyStr → List PyStr
  | [] => [[]]
  | c :: cs =>
    if c = '\n' then [] :: splitOnNl cs
    else
      match splitOnNl cs with
      | l :: ls => (c :: l) :: ls
      | [] => [[c]]

/-- Helper for `pySplitWs`: walks the characters accumulating the
current field (reversed) and emits fields at whitespace boundaries. -/
def splitWsAux : PyStr → PyStr → List PyStr
  | [], cur => if cur = [] then [] else [cur.reverse]
  | c :: cs, cur =>
    if c.isWhitespace then
      if cur = [] then splitWsAux cs []
      else cur.reverse :: splitWsAux cs []
    else splitWsAux cs (c :: cur)

/-- Embedding of Python `line.split()` (no separator argument): split
on runs of whitespace, discarding empty fields. -/
def pySplitWs (l : PyStr) : List PyStr := splitWsAux l []

/-- Decimal digit value of a character, `none` for non-digits. -/
def pyDigit? (c : Char) : Option Nat :=
  if '0' ≤ c ∧ c ≤ '9' then some (c.toNat - '0'.toNat) else none

/-- Accumulating decimal evaluation of a digit string. -/
def pyDigitsVal : PyStr → Nat → Option Nat
  | [], acc => some acc
  | c :: cs, acc =>
    match pyDigit? c with
    | some d => pyDigitsVal cs (acc * 10 + d)
    | none => none

/-- Embedding of Python `int(s)` on a canonical decimal string: an
optional sign followed by at least one digit.  `none` embeds the
`ValueError` that `int` raises on anything else. -/
def pyInt : PyStr → Option Int
  | '-' :: ds => if ds = [] then none else (pyDigitsVal ds 0).map (fun n => -(n : Int))
  | '+' :: ds => if ds = [] then none else (pyDigitsVal ds 0).map (fun n => (n : Int))
  | ds => if ds = [] then none else (pyDigitsVal ds 0).map (fun n => (n : Int))

/-- Error-propagating map over a list, embedding a Python loop or
comprehension in which the body may raise: the first raise aborts the
whole traversal. -/
def mapExcept (f : α → Except PyErr β) : List α → Except PyErr (List β)
  | [] => Except.ok []
  | x :: xs =>
    match f x with
    | Except.error e => Except.error e
    | Except.ok y =>
      match mapExcept f xs with
      | Except.error e => Except.error e
      | Except.ok ys => Except.ok (y :: ys)

/-- Loop body of `filter_blast` (ispcr.py lines 57-65) over the list
of lines: skip empty lines, split the rest into columns, and keep a
record iff column 3 equals column 12 (string comparison, as in the
source).  Accessing column 3 or 12 of a shorter record raises
`IndexError`, exactly as `cols[3]`/`cols[12]` do in Python. -/
def filterBlastGo : List PyStr → Except PyErr (List (List PyStr))
  | [] => Except.ok []
  | line :: rest =>
    if line.length = 0 then filterBlastGo rest
    else
      let cols := pySplitWs line
      match cols[3]?, cols[12]? with
      | some c3, some c12 =>
        if c3 ≠ c12 then filterBlastGo rest
        else
          match filterBlastGo rest with
          | Except.error e => Except.error e
          | Except.ok r => Except.ok (cols :: r)
      | _, _ => Except.error PyErr.indexError

/-- Embedding of `filter_blast` (ispcr.py lines 56-65): iterate over
`blast_output.split("\n")` collecting the surviving records in
order. -/
def filter_blast (blast_output : PyStr) : Except PyErr (List (List PyStr)) :=
  filterBlastGo (splitOnNl blast_output)

/-- The records of a blast-output text: the whitespace-split columns
of every non-empty line, in order. -/
def blastRecords (blast_output : PyStr) : List (List PyStr) :=
  (splitOnNl blast_output).filterMap
    (fun line => if line.length = 0 then none else some (pySplitWs line))

/-- Field 1 of a hit record: the subject (contig) identifier. -/
def subject_id (h : List PyStr) : PyStr := (h[1]?).getD []

/-- Field 8 of a hit record parsed as an integer: the 1-based subject
start coordinate. -/
def subject_start (h : List PyStr) : Int := (pyInt ((h[8]?).getD [])).getD 0

/-- Field 9 of a hit record parsed as an integer: the 1-based subject
end coordinate. -/
def subject_end (h : List PyStr) : Int := (pyInt ((h[9]?).getD [])).getD 0

/-- Field 3 of a hit record: the alignment length (as written). -/
def alignment_length (h : List PyStr) : PyStr := (h[3]?).getD []

/-- Field 12 of a hit record: the query length (as written). -/
def query_length (h : List PyStr) : PyStr := (h[12]?).getD []

/-- Strict lexicographic comparison of two embedded strings by
character code point, embedding Python string `<`. -/
def strLt : PyStr → PyStr → Bool
  | [], [] => false
  | [], _ :: _ => true
  | _ :: _, [] => false
  | x :: xs, y :: ys =>
    if x.toNat < y.toNat then true
    else if y.toNat < x.toNat then false
    else strLt xs ys

/-- The comparison used by the sort in `step_one` (ispcr.py line 12):
ascending lexicographic order on the key `(x[1], int(x[8]))`,
comparing the subject id as a string and the start as an integer. -/
def hitLeB (x y : List PyStr) : Bool :=
  strLt (subject_id x) (subject_id y) ||
    (decide (subject_id x = subject_id y) && decide (subject_start x ≤ subject_start y))

/-- Propositional form of `hitLeB`. -/
def hitLe (x y : List PyStr) : Prop := hitLeB x y = true

instance : DecidableRel hitLe := fun x y => inferInstanceAs (Decidable (hitLeB x y = true))

/-- Embedding of the key function `lambda x: (x[1], int(x[8]))` of
the `sorted` call in `step_one`, including the exceptions it can
raise (`IndexError` on a short record, `ValueError` on a
non-integer start field). -/
def hitKeyE (h : List PyStr) : Except PyErr (PyStr × Int) :=
  match h[1]? with
  | none => Except.error PyErr.indexError
  | some sid =>
    match h[8]? with
    | none => Except.error PyErr.indexError
    | some s8 =>
      match pyInt s8 with
      | none => Except.error PyErr.valueError
      | some n => Except.ok (sid, n)

/-- Embedding of `step_one` (ispcr.py lines 9-13) from the blast
output text onward: `find_annealing` only invokes the external
`blastn` process, so the embedding starts from its output string,
then filters (`filter_blast`) and sorts ascending by
`(subject_id, int(subject_start))`.  Python's `sorted` is a stable
comparison sort; it is embedded as a stable insertion sort, after
evaluating the key function on every record as `sorted` does. -/
def step_one (blast_output : PyStr) : Except PyErr (List (List PyStr)) :=
  match filter_blast blast_output with
  | Except.error e => Except.error e
  | Except.ok good =>
    match mapExcept hitKeyE good with
    | Except.error e => Except.error e
    | Except.ok _ => Except.ok (good.insertionSort hitLe)

/-- Embedding of line 74 / line 81 of ispcr.py:
`start, stop = [int(i) for i in hit[8:10]]`.  A slice never raises,
so a record with fewer than 10 fields fails the two-element
unpacking with `ValueError`; a non-integer field fails `int` with
`ValueError`. -/
def parseCoords (h : List PyStr) : Except PyErr (Int × Int) :=
  match h[8]?, h[9]? with
  | some s8, some s9 =>
    match pyInt s8, pyInt s9 with
    | some x, some y => Except.ok (x, y)
    | _, _ => Except.error PyErr.valueError
  | _, _ => Except.error PyErr.valueError

/-- Direction of a hit (ispcr.py lines 75 and 82): `true` embeds
`"fwd"` (`start < stop`), `false` embeds `"rev"`. -/
def dirOf (s e : Int) : Bool := decide (s < e)

/-- A hit record is well-formed for the pairer: it has a subject-id
field and its coordinate fields parse as integers. -/
def wfHit (h : List PyStr) : Bool :=
  (h[1]?).isSome &&
    (match parseCoords h with
     | Except.ok _ => true
     | Except.error _ => false)

/-- Inner loop of `identify_paired_hits` (ispcr.py lines 76-101) for
a fixed outer hit `a` with parsed coordinates `aS`, `aSt` and
direction `aD`, scanning the remaining hits `bs` in order.  The
branch structure mirrors the source line by line; the
`Except.ok []` in the first coordinate branch embeds the `break` on
line 91. -/
def innerLoop (m : Int) (a : List PyStr) (aS aSt : Int) (aD : Bool) :
    List (List PyStr) → Except PyErr (List (List PyStr × List PyStr))
  | [] => Except.ok []
  | b :: bs =>
    match a[1]? with
    | none => Except.error PyErr.indexError
    | some aid =>
      match b[1]? with
      | none => Except.error PyErr.indexError
      | some bid =>
        if aid ≠ bid then innerLoop m a aS aSt aD bs
        else
          match parseCoords b with
          | Except.error e => Except.error e
          | Except.ok (bS, bSt) =>
            if aD = dirOf bS bSt then innerLoop m a aS aSt aD bs
            else if aS < bS then
              if aD = false then innerLoop m a aS aSt aD bs
              else if ¬ aSt > bS - m then Except.ok []
              else
                match innerLoop m a aS aSt aD bs with
                | Except.error e => Except.error e
                | Except.ok r => Except.ok ((a, b) :: r)
            else if dirOf bS bSt = false then innerLoop m a aS aSt aD bs
            else if ¬ bSt > aS - m then innerLoop m a aS aSt aD bs
            else
              match innerLoop m a aS aSt aD bs with
              | Except.error e => Except.error e
              | Except.ok r => Except.ok ((a, b) :: r)

/-- Outer loop of `identify_paired_hits` (ispcr.py lines 72-101):
`for i in range(len(good_hits)-1)` is embedded by recursing on the
list and skipping the final singleton, parsing the outer hit's
coordinates before the inner scan, exactly as lines 73-75 do. -/
def identifyGo (m : Int) : List (List PyStr) → Except PyErr (List (List PyStr × List PyStr))
  | [] => Except.ok []
  | a :: rest =>
    if rest.isEmpty then Except.ok []
    else
      match parseCoords a with
      | Except.error e => Except.error e
      | Except.ok (aS, aSt) =>
        match innerLoop m a aS aSt (dirOf aS aSt) rest with
        | Except.error e => Except.error e
        | Except.ok ps =>
          match identifyGo m rest with
          | Except.error e => Except.error e
          | Except.ok qs => Except.ok (ps ++ qs)

/-- Embedding of `identify_paired_hits` (ispcr.py lines 67-102). -/
def identify_paired_hits (good_hits : List (List PyStr)) (max_amp_size : Int) :
    Except PyErr (List (List PyStr × List PyStr)) :=
  identifyGo max_amp_size good_hits

/-- Variant of `innerLoop` in which the early exit (the `break` on
line 91 of ispcr.py) is replaced by a plain skip of the current
inner hit, so that every index pair is examined. -/
def innerLoopNB (m : Int) (a : List PyStr) (aS aSt : Int) (aD : Bool) :
    List (List PyStr) → Except PyErr (List (List PyStr × List PyStr))
  | [] => Except.ok []
  | b :: bs =>
    match a[1]? with
    | none => Except.error PyErr.indexError
    | some aid =>
      match b[1]? with
      | none => Except.error PyErr.indexError
      | some bid =>
        if aid ≠ bid then innerLoopNB m a aS aSt aD bs
        else
          match parseCoords b with
          | Except.error e => Except.error e
          | Except.ok (bS, bSt) =>
            if aD = dirOf bS bSt then innerLoopNB m a aS aSt aD bs
            else if aS < bS then
              if aD = false then innerLoopNB m a aS aSt aD bs
              else if ¬ aSt > bS - m then innerLoopNB m a aS aSt aD bs
              else
                match innerLoopNB m a aS aSt aD bs with
                | Except.error e => Except.error e
                | Except.ok r => Except.ok ((a, b) :: r)
            else if dirOf bS bSt = false then innerLoopNB m a aS aSt aD bs
            else if ¬ bSt > aS - m then innerLoopNB m a aS aSt aD bs
            else
              match innerLoopNB m a aS aSt aD bs with
              | Except.error e => Except.error e
              | Except.ok r => Except.ok ((a, b) :: r)

/-- Outer loop of the exhaustive (no-early-exit) pairer. -/
def identifyGoNB (m : Int) : List (List PyStr) → Except PyErr (List (List PyStr × List PyStr))
  | [] => Except.ok []
  | a :: rest =>
    if rest.isEmpty then Except.ok []
    else
      match parseCoords a with
      | Except.error e => Except.error e
      | Except.ok (aS, aSt) =>
        match innerLoopNB m a aS aSt (dirOf aS aSt) rest with
        | Except.error e => Except.error e
        | Except.ok ps =>
          match identifyGoNB m rest with
          | Except.error e => Except.error e
          | Except.ok qs => Except.ok (ps ++ qs)

/-- The exhaustive scan over all index pairs `i < j` with the early
exit of Case A removed (a skip in its place). -/
def identify_paired_hits_noBreak (good_hits : List (List PyStr)) (max_amp_size : Int) :
    Except PyErr (List (List PyStr × List PyStr)) :=
  identifyGoNB max_amp_size good_hits

/-- All ordered index pairs of a list, in outer-then-inner scan
order: `(l[i], l[j])` for `i < j`. -/
def allIndexPairs : List α → List (α × α)
  | [] => []
  | x :: xs => (xs.map (fun y => (x, y))) ++ allIndexPairs xs

/-- One bed line of `get_amplicons` (ispcr.py lines 110-115):
`(f_hit[1], int(f_hit[9]), int(r_hit[9]) - 1)`, with the exceptions
field access and `int` can raise. -/
def bedEntry (p : List PyStr × List PyStr) : Except PyErr (PyStr × Int × Int) :=
  match p.1[1]? with
  | none => Except.error PyErr.indexError
  | some contig =>
    match p.1[9]? with
    | none => Except.error PyErr.indexError
    | some f9 =>
      match pyInt f9 with
      | none => Except.error PyErr.valueError
      | some st =>
        match p.2[9]? with
        | none => Except.error PyErr.indexError
        | some r9 =>
          match pyInt r9 with
          | none => Except.error PyErr.valueError
          | some en => Except.ok (contig, st, en - 1)

/-- Embedding of the coordinate-window part of `get_amplicons`
(ispcr.py lines 104-117): the bed triples handed to the external
`seqtk subseq` call, one per hit pair, in order.  The `seqtk`
invocation itself is an external collaborator and is not part of the
embedding. -/
def get_amplicons_bed (hit_pairs : List (List PyStr × List PyStr)) :
    Except PyErr (List (PyStr × Int × Int)) :=
  mapExcept bedEntry hit_pairs

/-- Embedding of the dict `base_complements` of magop.py line 170:
`{'A': 'T', 'C': 'G', 'G': 'C', 'T': 'A'}`; `none` embeds the
`KeyError` a lookup of any other character raises. -/
def base_complements (c : Char) : Option Char :=
  if c = 'A' then some 'T'
  else if c = 'C' then some 'G'
  else if c = 'G' then some 'C'
  else if c = 'T' then some 'A'
  else none

/-- The dict lookup `base_complements[nuc]` as a fallible step. -/
def complementChar (c : Char) : Except PyErr Char :=
  match base_complements c with
  | some d => Except.ok d
  | none => Except.error PyErr.keyError

/-- Embedding of magop.py line 171:
`''.join([base_complements[nuc] for nuc in reversed(amplicon_2)])` —
reverse the sequence and complement every character, raising
`KeyError` on any character outside `{A, C, G, T}`. -/
def reverse_complement (s : PyStr) : Except PyErr PyStr :=
  mapExcept complementChar s.reverse

/-- Modelled from the spec: `needleman_wunsch` is defined in
`magnumopus/scripts/nw.py`, which is not among the provided sources
(only its caller `magop.main` is).  Following spec section 4.4, the
score is the classic global-alignment recurrence
`S[i][j] = max(S[i-1][j-1] + (match if a[i-1] == b[j-1] else
mismatch), S[i-1][j] + gap, S[i][j-1] + gap)` with base cases
`S[i][0] = i * gap` and `S[0][j] = j * gap`.  This helper computes
one DP row past column 0: `bs` are the remaining characters of `b`,
`prev` is the previous row from column `j - 1` on, and `left` is the
current row's value at column `j - 1`. -/
def nwRowGo (mat mis gap : Int) (ai : Char) : PyStr → List Int → Int → List Int
  | bj :: bs, diag :: prest, left =>
    match prest with
    | up :: _ =>
      let v := max (diag + (if ai = bj then mat else mis)) (max (up + gap) (left + gap))
      v :: nwRowGo mat mis gap ai bs prest v
    | [] => []
  | _, _, _ => []

/-- Modelled from the spec: row-by-row evaluation of the
Needleman-Wunsch table of section 4.4, carrying the previous row and
the 1-based row index. -/
def nwRows (mat mis gap : Int) (b : PyStr) : PyStr → List Int → Int → List Int
  | [], prev, _ => prev
  | ai :: rest, prev, i =>
    let head := (i + 1) * gap
    nwRows mat mis gap b rest (head :: nwRowGo mat mis gap ai b prev head) (i + 1)

/-- Modelled from the spec: the score `S[m][n]` returned by
`needleman_wunsch` of the absent `nw.py`, per spec section 4.4. -/
def needleman_wunsch_score (a b : PyStr) (mat mis gap : Int) : Int :=
  let row0 := (List.range (b.length + 1)).map (fun j => (j : Int) * gap)
  ((nwRows mat mis gap b a row0 0).getLast?).getD 0

/-- Embedding of the per-amplicon body of the orientation loop of
`main` (magop.py lines 163-177): score the candidate against the
anchor with `match = 1`, `mismatch = -1`, `gap = -1`, build the
reverse complement, score it, and emit the reverse complement iff
its score is strictly greater. -/
def orient_amplicon (anchor amp : PyStr) : Except PyErr PyStr :=
  let score := needleman_wunsch_score anchor amp 1 (-1) (-1)
  match reverse_complement amp with
  | Except.error e => Except.error e
  | Except.ok amp_rc =>
    let score_rc := needleman_wunsch_score anchor amp_rc 1 (-1) (-1)
    if score_rc > score then Except.ok amp_rc else Except.ok amp

/-- Embedding of the whole orientation loop of `main` over the
collected amplicon sequences: the body runs per amplicon and an
uncaught exception aborts the loop. -/
def orient_amplicons (anchor : PyStr) (amps : List PyStr) : Except PyErr (List PyStr) :=
  mapExcept (orient_amplicon anchor) amps

/-- A nucleotide over the alphabet `{A, C, G, T}`. -/
def nucValid (c : Char) : Prop := c = 'A' ∨ c = 'C' ∨ c = 'G' ∨ c = 'T'

instance (c : Char) : Decidable (nucValid c) :=
  inferInstanceAs (Decidable (_ ∨ _ ∨ _ ∨ _))

/-- Pure complement of a valid nucleotide (identity elsewhere),
mirroring `base_complements` on its domain. -/
def complPure (c : Char) : Char :=
  if c = 'A' then 'T'
  else if c = 'C' then 'G'
  else if c = 'G' then 'C'
  else if c = 'T' then 'A'
  else c

/-- Forward hit of the end-to-end scenario: `subject_start = 10`,
`subject_end = 30` on contig `C1`, full-length (field 3 = field 12). -/
def fHitC5 : List PyStr :=
  ["p1".data, "C1".data, "100.0".data, "20".data, "0".data, "0".data, "1".data,
   "20".data, "10".data, "30".data, "0.0".data, "40.0".data, "20".data]

/-- Reverse hit of the end-to-end scenario: `subject_start = 200`,
`subject_end = 180` on contig `C1`. -/
def rHitC5 : List PyStr :=
  ["p2".data, "C1".data, "100.0".data, "18".data, "0".data, "0".data, "1".data,
   "18".data, "200".data, "180".data, "0.0".data, "36.0".data, "18".data]

/-- A reverse hit with `subject_start = 100`, `subject_end = 80` on
contig `C1`; paired with `hFwdCB` it drives the pairer into Case B
(the inner hit starts at the same coordinate). -/
def hRevCB : List PyStr :=
  ["p2".data, "C1".data, "100.0".data, "20".data, "0".data, "0".data, "1".data,
   "20".data, "100".data, "80".data, "0.0".data, "40.0".data, "20".data]

/-- A forward hit with `subject_start = 100`, `subject_end = 5000` on
contig `C1`. -/
def hFwdCB : List PyStr :=
  ["p1".data, "C1".data, "100.0".data, "20".data, "0".data, "0".data, "1".data,
   "20".data, "100".data, "5000".data, "0.0".data, "40.0".data, "20".data]

/-- A blast-output text whose second line cannot be split into 13
fields. -/
def blastBadTxt : PyStr :=
  ("p1 C1 100.0 20 0 0 1 20 10 30 0.0 40.0 20\nbad line\n").data

/-- Amplicon list whose first element contains the letter `N`, which
is outside the `base_complements` alphabet. -/
def ampsC7 : List PyStr := [['A', 'N'], ['A', 'C']]

/-- A raw hit record is well-formed: it has the full 13 fields and
its start coordinate parses as an integer. -/
def wfRecord (r : List PyStr) : Bool :=
  decide (13 ≤ r.length) && (pyInt ((r[8]?).getD [])).isSome

/-- A three-line blast output: the middle record fails the
full-length filter (field 3 is `19`, field 12 is `20`) and the
records arrive out of sorted order. -/
def blastTxtC4 : PyStr :=
  ("p2 C1 100.0 18 0 0 1 18 200 180 0.0 36.0 18\np1 C1 99.0 19 0 0 1 19 10 30 0.0 40.0 20\np1 C0 100.0 20 0 0 1 20 10 30 0.0 40.0 20\n").data

lemma mapExcept_ok_mem {f : α → Except PyErr β} {l : List α} {ys : List β}
    (h : mapExcept f l = Except.ok ys) {x : α} (hx : x ∈ l) :
    ∃ y, f x = Except.ok y := by
  induction l generalizing ys with
  | nil => cases hx
  | cons a l ih =>
    simp only [mapExcept] at h
    cases hfa : f a with
    | error e => rw [hfa] at h; exact Except.noConfusion h
    | ok y =>
      rw [hfa] at h
      cases hrest : mapExcept f l with
      | error e => rw [hrest] at h; exact Except.noConfusion h
      | ok ys' =>
        rcases List.mem_cons.mp hx with rfl | hx'
        · exact ⟨y, hfa⟩
        · exact ih hrest hx'

lemma mapExcept_eq_map {f : α → Except PyErr β} {g : α → β} {l : List α}
    (h : ∀ x ∈ l, f x = Except.ok (g x)) :
    mapExcept f l = Except.ok (l.map g) := by
  induction l with
  | nil => rfl
  | cons a l ih =>
    simp only [mapExcept, h a (List.mem_cons_self a l),
      ih (fun x hx => h x (List.mem_cons_of_mem a hx)), List.map_cons]

lemma bedEntry_ok {p : List PyStr × List PyStr} {w : PyStr × Int × Int}
    (h : bedEntry p = Except.ok w) :
    w = (subject_id p.1, subject_end p.1, subject_end p.2 - 1) := by
  unfold bedEntry at h
  cases h1 : p.1[1]? with
  | none => simp only [h1] at h; exact Except.noConfusion h
  | some contig =>
    simp only [h1] at h
    cases h2 : p.1[9]? with
    | none => simp only [h2] at h; exact Except.noConfusion h
    | some f9 =>
      simp only [h2] at h
      cases h3 : pyInt f9 with
      | none => simp only [h3] at h; exact Except.noConfusion h
      | some st =>
        simp only [h3] at h
        cases h4 : p.2[9]? with
        | none => simp only [h4] at h; exact Except.noConfusion h
        | some r9 =>
          simp only [h4] at h
          cases h5 : pyInt r9 with
          | none => simp only [h5] at h; exact Except.noConfusion h
          | some en =>
            simp only [h5] at h
            cases h
            simp [subject_id, subject_end, h1, h2, h3, h4, h5]

/-- Claim C1 (code bug): on a sorted two-hit input that drives the
pairer into Case B, `identify_paired_hits` emits the pair
`(hits[0], hits[1])` whose first element is the reverse-direction
hit (`subject_end < subject_start`) and whose second element is the
forward hit, contradicting the specified placement of the forward
hit first (the source appends `(a_hit, b_hit)` on line 101 of
ispcr.py where `b_hit` is the forward one). -/
theorem identify_paired_hits_case_b_reverse_first :
    identify_paired_hits [hRevCB, hFwdCB] 2000 = Except.ok [(hRevCB, hFwdCB)] ∧
    subject_end hRevCB < subject_start hRevCB ∧
    subject_start hFwdCB < subject_end hFwdCB :=
  ⟨rfl, by decide, by decide⟩

/-- Claim C2 (code bug): the two hits of the emitted pair do lie on
the same contig and have opposite directions, but the implied
amplicon window of the pair `(leading, trailing)` — starting at
`leading.subject_end` and ending at `trailing.subject_end - 1` —
has length `4919 > 2000 = max_amplicon_size`, because Case B places
the reverse hit first. -/
theorem identify_paired_hits_window_exceeds_max :
    identify_paired_hits [hRevCB, hFwdCB] 2000 = Except.ok [(hRevCB, hFwdCB)] ∧
    subject_id hRevCB = subject_id hFwdCB ∧
    (dirOf (subject_start hRevCB) (subject_end hRevCB) ≠
      dirOf (subject_start hFwdCB) (subject_end hFwdCB)) ∧
    ¬ ((subject_end hFwdCB - 1) - subject_end hRevCB ≤ 2000) :=
  ⟨rfl, by decide, by decide, by decide⟩

/-- Claim C5: every window derived by the bed computation of
`get_amplicons` is `(leading.subject_id, leading.subject_end,
trailing.subject_end - 1)`, and on the end-to-end scenario (forward
hit 10-30 and reverse hit 200-180 on contig `C1`,
`max_amplicon_size = 2000`) the pairer yields exactly the single
pair `(forward, reverse)` and the window `("C1", 30, 179)`. -/
theorem get_amplicons_window_spec :
    (∀ (pairs : List (List PyStr × List PyStr)) (out : List (PyStr × Int × Int)),
      get_amplicons_bed pairs = Except.ok out →
      out = pairs.map (fun p => (subject_id p.1, subject_end p.1, subject_end p.2 - 1))) ∧
    identify_paired_hits [fHitC5, rHitC5] 2000 = Except.ok [(fHitC5, rHitC5)] ∧
    get_amplicons_bed [(fHitC5, rHitC5)] = Except.ok [("C1".data, (30 : Int), (179 : Int))] := by
  refine ⟨?_, rfl, rfl⟩
  intro pairs
  induction pairs with
  | nil =>
    intro out h
    cases h
    rfl
  | cons p ps ih =>
    intro out h
    simp only [get_amplicons_bed, mapExcept] at h
    cases hp : bedEntry p with
    | error e => rw [hp] at h; exact Except.noConfusion h
    | ok w =>
      rw [hp] at h
      cases hps : mapExcept bedEntry ps with
      | error e => rw [hps] at h; exact Except.noConfusion h
      | ok ws =>
        rw [hps] at h
        cases h
        simp only [List.map_cons]
        exact congrArg₂ (· :: ·) (bedEntry_ok hp) (ih ws hps)

/-- Claim C5 witness: the general window rule evaluated on the
scenario pair. -/
theorem get_amplicons_window_spec_witness :
    ([("C1".data, (30 : Int), (179 : Int))] : List (PyStr × Int × Int)) =
      [(fHitC5, rHitC5)].map
        (fun p => (subject_id p.1, subject_end p.1, subject_end p.2 - 1)) :=
  get_amplicons_window_spec.1 [(fHitC5, rHitC5)] _ rfl

/-- Claim C6: the orientation normaliser computes the
Needleman-Wunsch score of the candidate and of its reverse
complement against the anchor with scoring `match = 1`,
`mismatch = -1`, `gap = -1`, and emits the reverse complement iff
its score is strictly greater; on ties and whenever the reverse
score is not greater it emits the candidate unchanged. -/
theorem orient_amplicon_spec (anchor amp rc : PyStr)
    (h : reverse_complement amp = Except.ok rc) :
    orient_amplicon anchor amp =
      Except.ok
        (if needleman_wunsch_score anchor rc 1 (-1) (-1) >
            needleman_wunsch_score anchor amp 1 (-1) (-1)
         then rc else amp) := by
  unfold orient_amplicon
  rw [h]
  by_cases hc : needleman_wunsch_score anchor rc 1 (-1) (-1) >
      needleman_wunsch_score anchor amp 1 (-1) (-1)
  · simp [hc]
  · simp [hc]

/-- Claim C6 witness: instantiated at the anchor `ACGT` and the
candidate `ACGT` (whose reverse complement is itself, a tie, so the
candidate is emitted unchanged). -/
theorem orient_amplicon_spec_witness :
    reverse_complement "ACGT".data = Except.ok "ACGT".data ∧
    orient_amplicon "ACGT".data "ACGT".data =
      Except.ok
        (if needleman_wunsch_score "ACGT".data "ACGT".data 1 (-1) (-1) >
            needleman_wunsch_score "ACGT".data "ACGT".data 1 (-1) (-1)
         then "ACGT".data else "ACGT".data) :=
  ⟨rfl, orient_amplicon_spec "ACGT".data "ACGT".data "ACGT".data rfl⟩

/-- Claim C7 counterexample: with anchor `AC` and amplicons
`["AN", "AC"]`, the orientation loop does not report the bad
amplicon and continue with the remaining one — the `KeyError`
raised by `base_complements['N']` aborts the whole loop, so no
output list is produced at all. -/
theorem orient_amplicons_invalid_char_cex :
    orient_amplicons ['A', 'C'] ampsC7 = Except.error PyErr.keyError ∧
    ¬ ∃ out, orient_amplicons ['A', 'C'] ampsC7 = Except.ok out := by
  refine ⟨rfl, ?_⟩
  rintro ⟨out, hout⟩
  rw [show orient_amplicons ['A', 'C'] ampsC7 = Except.error PyErr.keyError from rfl] at hout
  exact Except.noConfusion hout

/-- Claim C7 as amended: a character outside `{A, C, G, T}` in any
amplicon makes the reverse complement raise an uncaught `KeyError`,
which aborts the entire orientation loop — no per-amplicon recovery
happens and the remaining amplicons are not processed. -/
theorem orient_amplicons_invalid_char_aborts (anchor : PyStr) (amps : List PyStr)
    (h : ∃ amp ∈ amps, ∃ c ∈ amp, base_complements c = none) :
    ∃ e, orient_amplicons anchor amps = Except.error e := by
  obtain ⟨amp, hamp, c, hc, hbc⟩ := h
  have hrc : ∀ t, reverse_complement amp ≠ Except.ok t := by
    intro t ht
    obtain ⟨d, hd⟩ := mapExcept_ok_mem ht (List.mem_reverse.mpr hc)
    unfold complementChar at hd
    rw [hbc] at hd
    exact Except.noConfusion hd
  have horient : ∀ t, orient_amplicon anchor amp ≠ Except.ok t := by
    intro t ht
    unfold orient_amplicon at ht
    cases hr : reverse_complement amp with
    | error e => rw [hr] at ht; exact Except.noConfusion ht
    | ok u => exact hrc u hr
  cases hall : orient_amplicons anchor amps with
  | error e => exact ⟨e, rfl⟩
  | ok ys =>
    obtain ⟨y, hy⟩ := mapExcept_ok_mem hall hamp
    exact absurd hy (horient y)

/-- Claim C7 witness: the amended statement evaluated on the
concrete amplicon list containing `AN`. -/
theorem orient_amplicons_invalid_char_aborts_witness :
    (∃ amp ∈ ampsC7, ∃ c ∈ amp, base_complements c = none) ∧
    ∃ e, orient_amplicons ['A', 'C'] ampsC7 = Except.error e :=
  ⟨by decide, orient_amplicons_invalid_char_aborts ['A', 'C'] ampsC7 (by decide)⟩

/-- Claim C8 counterexample: on a batch whose second line is the
malformed `bad line`, the filter does not report and skip the line
while keeping the valid first record — it aborts with an uncaught
`IndexError` and returns no records at all. -/
theorem filter_blast_malformed_line_cex :
    filter_blast blastBadTxt = Except.error PyErr.indexError ∧
    ¬ ∃ out, filter_blast blastBadTxt = Except.ok out := by
  refine ⟨rfl, ?_⟩
  rintro ⟨out, hout⟩
  rw [show filter_blast blastBadTxt = Except.error PyErr.indexError from rfl] at hout
  exact Except.noConfusion hout

lemma filterBlastGo_malformed (lines : List PyStr)
    (h : ∃ line ∈ lines, line.length ≠ 0 ∧ (pySplitWs line).length < 13) :
    filterBlastGo lines = Except.error PyErr.indexError := by
  induction lines with
  | nil =>
    obtain ⟨l, hm, _⟩ := h
    cases hm
  | cons line rest ih =>
    have hrest : (∃ l ∈ rest, l.length ≠ 0 ∧ (pySplitWs l).length < 13) →
        filterBlastGo rest = Except.error PyErr.indexError := ih
    simp only [filterBlastGo]
    by_cases hlen : line.length = 0
    · rw [if_pos hlen]
      apply hrest
      obtain ⟨l, hm, hprops⟩ := h
      rcases List.mem_cons.mp hm with rfl | hm'
      · exact absurd hlen hprops.1
      · exact ⟨l, hm', hprops⟩
    · rw [if_neg hlen]
      by_cases hshort : (pySplitWs line).length < 13
      · have h12 : (pySplitWs line)[12]? = none := by
          rw [List.getElem?_eq_none_iff]
          omega
        cases h3 : (pySplitWs line)[3]? with
        | none => simp only [h12]
        | some c3 => simp only [h12]
      · have h3 : (pySplitWs line)[3]? = some (pySplitWs line)[3] :=
          List.getElem?_eq_getElem (by omega)
        have h12 : (pySplitWs line)[12]? = some (pySplitWs line)[12] :=
          List.getElem?_eq_getElem (by omega)
        simp only [h3, h12]
        have hr : filterBlastGo rest = Except.error PyErr.indexError := by
          apply hrest
          obtain ⟨l, hm, hprops⟩ := h
          rcases List.mem_cons.mp hm with rfl | hm'
          · exact absurd hprops.2 (by omega)
          · exact ⟨l, hm', hprops⟩
        by_cases heq : (pySplitWs line)[3] ≠ (pySplitWs line)[12]
        · rw [if_pos heq]
          exact hr
        · rw [if_neg heq, hr]

/-- Claim C8 as amended: any non-blank line that splits into fewer
than 13 fields makes `filter_blast` raise an uncaught `IndexError`
(at `cols[3]` or `cols[12]`), aborting the whole batch; the line is
neither reported nor skipped, and no error-value handling exists. -/
theorem filter_blast_malformed_line_aborts (s : PyStr)
    (h : ∃ line ∈ splitOnNl s, line.length ≠ 0 ∧ (pySplitWs line).length < 13) :
    filter_blast s = Except.error PyErr.indexError := by
  unfold filter_blast
  exact filterBlastGo_malformed _ h

/-- Claim C8 witness: the amended statement evaluated on the batch
containing the malformed line `bad line`. -/
theorem filter_blast_malformed_line_aborts_witness :
    (∃ line ∈ splitOnNl blastBadTxt, line.length ≠ 0 ∧ (pySplitWs line).length < 13) ∧
    filter_blast blastBadTxt = Except.error PyErr.indexError :=
  ⟨by decide, filter_blast_malformed_line_aborts blastBadTxt (by decide)⟩

/-- Claim C9: reverse complement is an involution on sequences over
`{A, C, G, T}`: applying it twice returns the original sequence. -/
theorem reverse_complement_involution (s : PyStr) (h : ∀ c ∈ s, nucValid c) :
    ∃ t, reverse_complement s = Except.ok t ∧ reverse_complement t = Except.ok s := by
  have hbc : ∀ c, nucValid c → base_complements c = some (complPure c) := by
    intro c hc
    rcases hc with rfl | rfl | rfl | rfl <;> rfl
  have hstep : ∀ (l : PyStr), (∀ c ∈ l, nucValid c) →
      mapExcept complementChar l = Except.ok (l.map complPure) := by
    intro l hl
    refine mapExcept_eq_map ?_
    intro c hc
    unfold complementChar
    rw [hbc c (hl c hc)]
  refine ⟨(s.map complPure).reverse, ?_, ?_⟩
  · unfold reverse_complement
    rw [hstep s.reverse (fun c hc => h c (List.mem_reverse.mp hc))]
    rw [List.map_reverse]
  · unfold reverse_complement
    rw [List.reverse_reverse]
    rw [hstep (s.map complPure) ?valid]
    case valid =>
      intro c hc
      obtain ⟨d, hd, rfl⟩ := List.mem_map.mp hc
      rcases h d hd with rfl | rfl | rfl | rfl <;> decide
    rw [List.map_map]
    congr 1
    rw [show s.map (complPure ∘ complPure) = s.map id from
      List.map_congr_left (fun d hd => by
        rcases h d hd with rfl | rfl | rfl | rfl <;> rfl)]
    exact List.map_id s

lemma innerLoop_sublist {m : Int} {a : List PyStr} {aS aSt : Int} {aD : Bool} :
    ∀ {bs : List (List PyStr)} {ps},
      innerLoop m a aS aSt aD bs = Except.ok ps →
      ps.Sublist (bs.map (fun b => (a, b))) := by
  intro bs
  induction bs with
  | nil =>
    intro ps h
    cases h
    exact List.nil_sublist _
  | cons b bs ih =>
    intro ps h
    simp only [innerLoop] at h
    cases ha : a[1]? with
    | none => simp only [ha] at h; exact Except.noConfusion h
    | some aid =>
      simp only [ha] at h
      cases hb : b[1]? with
      | none => simp only [hb] at h; exact Except.noConfusion h
      | some bid =>
        simp only [hb] at h
        by_cases hid : aid ≠ bid
        · rw [if_pos hid] at h
          exact List.Sublist.cons _ (ih h)
        · rw [if_neg hid] at h
          cases hpc : parseCoords b with
          | error e => simp only [hpc] at h; exact Except.noConfusion h
          | ok q =>
            obtain ⟨bS, bSt⟩ := q
            simp only [hpc] at h
            by_cases hdir : aD = dirOf bS bSt
            · rw [if_pos hdir] at h
              exact List.Sublist.cons _ (ih h)
            · rw [if_neg hdir] at h
              by_cases hlt : aS < bS
              · rw [if_pos hlt] at h
                by_cases haD : aD = false
                · rw [if_pos haD] at h
                  exact List.Sublist.cons _ (ih h)
                · rw [if_neg haD] at h
                  by_cases hbr : ¬ aSt > bS - m
                  · rw [if_pos hbr] at h
                    cases h
                    exact List.nil_sublist _
                  · rw [if_neg hbr] at h
                    cases hrec : innerLoop m a aS aSt aD bs with
                    | error e => simp only [hrec] at h; exact Except.noConfusion h
                    | ok r =>
                      simp only [hrec] at h
                      cases h
                      exact List.Sublist.cons₂ _ (ih hrec)
              · rw [if_neg hlt] at h
                by_cases hbd : dirOf bS bSt = false
                · rw [if_pos hbd] at h
                  exact List.Sublist.cons _ (ih h)
                · rw [if_neg hbd] at h
                  by_cases hrng : ¬ bSt > aS - m
                  · rw [if_pos hrng] at h
                    exact List.Sublist.cons _ (ih h)
                  · rw [if_neg hrng] at h
                    cases hrec : innerLoop m a aS aSt aD bs with
                    | error e => simp only [hrec] at h; exact Except.noConfusion h
                    | ok r =>
                      simp only [hrec] at h
                      cases h
                      exact List.Sublist.cons₂ _ (ih hrec)

lemma identifyGo_sublist {m : Int} :
    ∀ {hits : List (List PyStr)} {ps},
      identifyGo m hits = Except.ok ps → ps.Sublist (allIndexPairs hits) := by
  intro hits
  induction hits with
  | nil =>
    intro ps h
    cases h
    exact List.nil_sublist _
  | cons a rest ih =>
    intro ps h
    simp only [identifyGo] at h
    by_cases hemp : rest.isEmpty
    · rw [if_pos hemp] at h
      cases h
      exact List.nil_sublist _
    · rw [if_neg hemp] at h
      cases hpc : parseCoords a with
      | error e => simp only [hpc] at h; exact Except.noConfusion h
      | ok q =>
        obtain ⟨aS, aSt⟩ := q
        simp only [hpc] at h
        cases hinner : innerLoop m a aS aSt (dirOf aS aSt) rest with
        | error e => simp only [hinner] at h; exact Except.noConfusion h
        | ok ips =>
          simp only [hinner] at h
          cases hrec : identifyGo m rest with
          | error e => simp only [hrec] at h; exact Except.noConfusion h
          | ok qs =>
            simp only [hrec] at h
            cases h
            exact List.Sublist.append (innerLoop_sublist hinner) (ih hrec)

/-- Claim C10: every pair emitted by `identify_paired_hits` is
`(hits[i], hits[j])` for indices `i < j` — the output is a sublist
of the outer-then-inner ordered list of all index pairs, so the
first element of each pair occupies a strictly smaller input
position, each index pair contributes at most one output pair, and
with fewer than two input hits the output is empty. -/
theorem identify_paired_hits_index_order (hits : List (List PyStr)) (m : Int)
    (pairs : List (List PyStr × List PyStr))
    (h : identify_paired_hits hits m = Except.ok pairs) :
    pairs.Sublist (allIndexPairs hits) ∧ (hits.length < 2 → pairs = []) := by
  constructor
  · exact identifyGo_sublist h
  · intro hlen
    rcases hits with _ | ⟨x, _ | ⟨y, t⟩⟩
    · simp only [identify_paired_hits, identifyGo] at h
      cases h
      rfl
    · simp only [identify_paired_hits, identifyGo, List.isEmpty_nil, if_true] at h
      cases h
      rfl
    · exfalso
      simp only [List.length_cons] at hlen
      omega

/-- Claim C10 witness: instantiated on the two-hit scenario input,
whose single output pair is `(hits[0], hits[1])`. -/
theorem identify_paired_hits_index_order_witness :
    ([(fHitC5, rHitC5)] : List (List PyStr × List PyStr)).Sublist
        (allIndexPairs [fHitC5, rHitC5]) ∧
    ([fHitC5, rHitC5].length < 2 → [(fHitC5, rHitC5)] = []) :=
  identify_paired_hits_index_order [fHitC5, rHitC5] 2000 [(fHitC5, rHitC5)] rfl

/-- Claim C9 witness: the involution evaluated on `ACG`. -/
theorem reverse_complement_involution_witness :
    (∀ c ∈ ['A', 'C', 'G'], nucValid c) ∧
    ∃ t, reverse_complement ['A', 'C', 'G'] = Except.ok t ∧
      reverse_complement t = Except.ok ['A', 'C', 'G'] :=
  ⟨by decide, reverse_complement_involution ['A', 'C', 'G'] (by decide)⟩

lemma charToNat_inj {c d : Char} (h : c.toNat = d.toNat) : c = d :=
  Char.ext (UInt32.toNat.inj h)

lemma strLt_irrefl (s : PyStr) : strLt s s = false := by
  induction s with
  | nil => rfl
  | cons c cs ih =>
    simp only [strLt]
    rw [if_neg (by omega), if_neg (by omega)]
    exact ih

lemma strLt_trans : ∀ {a b c : PyStr}, strLt a b = true → strLt b c = true → strLt a c = true := by
  intro a
  induction a with
  | nil =>
    intro b c hab hbc
    cases b with
    | nil => exact absurd hab (by simp [strLt])
    | cons y ys =>
      cases c with
      | nil => exact absurd hbc (by simp [strLt])
      | cons z zs => rfl
  | cons x xs ih =>
    intro b c hab hbc
    cases b with
    | nil => exact absurd hab (by simp [strLt])
    | cons y ys =>
      cases c with
      | nil => exact absurd hbc (by simp [strLt])
      | cons z zs =>
        simp only [strLt] at hab hbc ⊢
        by_cases hxy : x.toNat < y.toNat
        · by_cases hyz : y.toNat < z.toNat
          · rw [if_pos (by omega)]
          · by_cases hzy : z.toNat < y.toNat
            · rw [if_neg hyz, if_pos hzy] at hbc
              exact absurd hbc (by simp)
            · rw [if_pos (by omega)]
        · rw [if_neg hxy] at hab
          by_cases hyx : y.toNat < x.toNat
          · rw [if_pos hyx] at hab
            exact absurd hab (by simp)
          · rw [if_neg hyx] at hab
            by_cases hyz : y.toNat < z.toNat
            · rw [if_pos (by omega)]
            · by_cases hzy : z.toNat < y.toNat
              · rw [if_neg hyz, if_pos hzy] at hbc
                exact absurd hbc (by simp)
              · rw [if_neg hyz, if_neg hzy] at hbc
                rw [if_neg (by omega), if_neg (by omega)]
                exact ih hab hbc

lemma strLt_eq_of_not : ∀ {a b : PyStr}, strLt a b = false → strLt b a = false → a = b := by
  intro a
  induction a with
  | nil =>
    intro b hab _
    cases b with
    | nil => rfl
    | cons y ys => exact absurd hab (by simp [strLt])
  | cons x xs ih =>
    intro b hab hba
    cases b with
    | nil => exact absurd hba (by simp [strLt])
    | cons y ys =>
      simp only [strLt] at hab hba
      by_cases hxy : x.toNat < y.toNat
      · rw [if_pos hxy] at hab
        exact absurd hab (by simp)
      · by_cases hyx : y.toNat < x.toNat
        · rw [if_pos hyx] at hba
          exact absurd hba (by simp)
        · rw [if_neg hxy, if_neg hyx] at hab
          rw [if_neg hyx, if_neg hxy] at hba
          have hc : x = y := charToNat_inj (by omega)
          subst hc
          rw [ih hab hba]

lemma hitLe_iff {x y : List PyStr} :
    hitLe x y ↔
      (strLt (subject_id x) (subject_id y) = true ∨
        (subject_id x = subject_id y ∧ subject_start x ≤ subject_start y)) := by
  unfold hitLe hitLeB
  simp [Bool.or_eq_true, Bool.and_eq_true, decide_eq_true_iff]

lemma hitLe_trans : ∀ x y z : List PyStr, hitLe x y → hitLe y z → hitLe x z := by
  intro x y z hxy hyz
  rw [hitLe_iff] at hxy hyz ⊢
  rcases hxy with h1 | ⟨e1, l1⟩
  · rcases hyz with h2 | ⟨e2, l2⟩
    · exact Or.inl (strLt_trans h1 h2)
    · exact Or.inl (e2 ▸ h1)
  · rcases hyz with h2 | ⟨e2, l2⟩
    · exact Or.inl (e1 ▸ h2)
    · exact Or.inr ⟨e1.trans e2, le_trans l1 l2⟩

lemma hitLe_total : ∀ x y : List PyStr, hitLe x y ∨ hitLe y x := by
    intro x y
    rw [hitLe_iff, hitLe_iff]
    by_cases h1 : strLt (subject_id x) (subject_id y) = true
    · exact Or.inl (Or.inl h1)
    · by_cases h2 : strLt (subject_id y) (subject_id x) = true
      · exact Or.inr (Or.inl h2)
      · have h1ypos : strLt (subject_id x) (subject_id y) = false := by
          cases hb : strLt (subject_id x) (subject_id y) with
          | true => exact absurd hb h1
          | false => rfl
        have h2pos : strLt (subject_id y) (subject_id x) = false := by
          cases hb : strLt (subject_id y) (subject_id x) with
          | true => exact absurd hb h2
          | false => rfl
        have he : subject_id x = subject_id y := strLt_eq_of_not h1ypos h2pos
        rcases le_total (subject_start x) (subject_start y) with hle | hle
        · exact Or.inl (Or.inr ⟨he, hle⟩)
        · exact Or.inr (Or.inr ⟨he.symm, hle⟩)

lemma hitKeyE_ok {r : List PyStr} (h13 : 13 ≤ r.length)
    (h8 : (pyInt ((r[8]?).getD [])).isSome = true) :
    hitKeyE r = Except.ok (subject_id r, subject_start r) := by
  have e1 : r[1]? = some r[1] := List.getElem?_eq_getElem (by omega)
  have e8 : r[8]? = some r[8] := List.getElem?_eq_getElem (by omega)
  rw [e8] at h8
  simp only [Option.getD_some] at h8
  obtain ⟨n, hn⟩ := Option.isSome_iff_exists.mp h8
  unfold hitKeyE
  simp only [e1, e8, hn]
  simp [subject_id, subject_start, e1, e8, hn]

lemma filterBlastGo_ok (lines : List PyStr)
    (hwf : ∀ line ∈ lines, line.length ≠ 0 → 13 ≤ (pySplitWs line).length) :
    filterBlastGo lines = Except.ok
      ((lines.filterMap (fun l => if l.length = 0 then none else some (pySplitWs l))).filter
        (fun c => decide (alignment_length c = query_length c))) := by
  induction lines with
  | nil => rfl
  | cons line rest ih =>
    have hr := ih (fun l hl hn => hwf l (List.mem_cons_of_mem _ hl) hn)
    simp only [filterBlastGo]
    by_cases hlen : line.length = 0
    · rw [if_pos hlen, hr]
      have hnil : line = [] := List.length_eq_zero.mp hlen
      subst hnil
      simp [List.filterMap_cons]
    · rw [if_neg hlen]
      have h13 : 13 ≤ (pySplitWs line).length := hwf line (List.mem_cons_self _ _) hlen
      have h3 : (pySplitWs line)[3]? = some (pySplitWs line)[3] :=
        List.getElem?_eq_getElem (by omega)
      have h12 : (pySplitWs line)[12]? = some (pySplitWs line)[12] :=
        List.getElem?_eq_getElem (by omega)
      simp only [h3, h12]
      have hfields : (alignment_length (pySplitWs line) = query_length (pySplitWs line)) ↔
          ((pySplitWs line)[3] = (pySplitWs line)[12]) := by
        unfold alignment_length query_length
        rw [h3, h12]
        simp
      by_cases heq : (pySplitWs line)[3] ≠ (pySplitWs line)[12]
      · rw [if_pos heq, hr]
        simp only [List.filterMap_cons, if_neg hlen, List.filter_cons]
        rw [if_neg (by simpa [hfields] using heq)]
      · rw [if_neg heq]
        simp only [hr]
        simp only [List.filterMap_cons, if_neg hlen, List.filter_cons]
        rw [if_pos (by push_neg at heq; simpa [hfields] using heq)]

/-- Claim C4: on every batch of well-formed raw hit records, the
filter-and-sort stage (`filter_blast` followed by the `sorted` of
`step_one`) outputs exactly the records whose `alignment_length`
field equals their `query_length` field — every other record is
excluded — and the output is sorted ascending by
`(subject_id, subject_start)`, the id compared as a string and the
start as an integer. -/
theorem step_one_filters_and_sorts (s : PyStr)
    (hwf : ∀ rec ∈ blastRecords s, wfRecord rec = true) :
    ∃ out, step_one s = Except.ok out ∧
      out.Perm ((blastRecords s).filter
        (fun c => decide (alignment_length c = query_length c))) ∧
      out.Sorted hitLe := by
  have hwf' : ∀ rec ∈ blastRecords s, 13 ≤ rec.length ∧
      (pyInt ((rec[8]?).getD [])).isSome = true := by
    intro rec hrec
    have := hwf rec hrec
    unfold wfRecord at this
    simpa [Bool.and_eq_true, decide_eq_true_iff] using this
  have hlines : ∀ line ∈ splitOnNl s, line.length ≠ 0 → 13 ≤ (pySplitWs line).length := by
    intro line hl hn
    have hmem : pySplitWs line ∈ blastRecords s := by
      unfold blastRecords
      exact List.mem_filterMap.mpr ⟨line, hl, by rw [if_neg hn]⟩
    exact (hwf' _ hmem).1
  have hfb : filter_blast s = Except.ok ((blastRecords s).filter
      (fun c => decide (alignment_length c = query_length c))) := by
    unfold filter_blast blastRecords
    exact filterBlastGo_ok _ hlines
  have hkeys : mapExcept hitKeyE ((blastRecords s).filter
      (fun c => decide (alignment_length c = query_length c))) =
      Except.ok (((blastRecords s).filter
        (fun c => decide (alignment_length c = query_length c))).map
          (fun r => (subject_id r, subject_start r))) := by
    apply mapExcept_eq_map
    intro r hrmem
    have hmem : r ∈ blastRecords s := (List.mem_filter.mp hrmem).1
    exact hitKeyE_ok (hwf' r hmem).1 (hwf' r hmem).2
  refine ⟨((blastRecords s).filter
      (fun c => decide (alignment_length c = query_length c))).insertionSort hitLe, ?_, ?_, ?_⟩
  · unfold step_one
    simp only [hfb, hkeys]
  · exact List.perm_insertionSort hitLe _
  · exact @List.sorted_insertionSort _ hitLe _ ⟨hitLe_total⟩ ⟨hitLe_trans⟩ _

/-- Claim C4 witness: instantiated on a three-record batch in which
the middle record is dropped by the filter and the sort reorders
the surviving two records. -/
theorem step_one_filters_and_sorts_witness :
    (∀ rec ∈ blastRecords blastTxtC4, wfRecord rec = true) ∧
    ∃ out, step_one blastTxtC4 = Except.ok out ∧
      out.Perm ((blastRecords blastTxtC4).filter
        (fun c => decide (alignment_length c = query_length c))) ∧
      out.Sorted hitLe :=
  ⟨by decide, step_one_filters_and_sorts blastTxtC4 (by decide)⟩

lemma parseCoords_ok_eq {h : List PyStr} {x y : Int}
    (hp : parseCoords h = Except.ok (x, y)) :
    subject_start h = x ∧ subject_end h = y := by
  unfold parseCoords at hp
  cases e8 : h[8]? with
  | none =>
    cases e9 : h[9]? with
    | none => simp only [e8, e9] at hp; exact Except.noConfusion hp
    | some s9 => simp only [e8, e9] at hp; exact Except.noConfusion hp
  | some s8 =>
    cases e9 : h[9]? with
    | none => simp only [e8, e9] at hp; exact Except.noConfusion hp
    | some s9 =>
      simp only [e8, e9] at hp
      cases i8 : pyInt s8 with
      | none =>
        cases i9 : pyInt s9 with
        | none => simp only [i8, i9] at hp; exact Except.noConfusion hp
        | some vy => simp only [i8, i9] at hp; exact Except.noConfusion hp
      | some vx =>
        cases i9 : pyInt s9 with
        | none => simp only [i8, i9] at hp; exact Except.noConfusion hp
        | some vy =>
          simp only [i8, i9] at hp
          cases hp
          refine ⟨?_, ?_⟩ <;> simp [subject_start, subject_end, e8, e9, i8, i9]

lemma wfHit_parse {h : List PyStr} (hw : wfHit h = true) :
    (∃ aid, h[1]? = some aid) ∧
      parseCoords h = Except.ok (subject_start h, subject_end h) := by
  unfold wfHit at hw
  rw [Bool.and_eq_true] at hw
  obtain ⟨h1, h2⟩ := hw
  refine ⟨Option.isSome_iff_exists.mp h1, ?_⟩
  cases hp : parseCoords h with
  | error e => simp only [hp] at h2; exact Bool.noConfusion h2
  | ok q =>
    obtain ⟨x, y⟩ := q
    obtain ⟨hx, hy⟩ := parseCoords_ok_eq hp
    rw [hx, hy]

lemma hitLe_start_le {b b' : List PyStr} (hle : hitLe b b')
    (hid : subject_id b' = subject_id b) :
    subject_start b ≤ subject_start b' := by
  rw [hitLe_iff] at hle
  rcases hle with hlt | ⟨_, hstart⟩
  · rw [hid] at hlt
    rw [strLt_irrefl] at hlt
    exact absurd hlt (by simp)
  · exact hstart

lemma innerLoopNB_nil_after_break (m : Int) (a : List PyStr) (aS aSt : Int)
    {aid : PyStr} (ha : a[1]? = some aid) {bS : Int} (haSbS : aS < bS)
    (hbreak : ¬ aSt > bS - m) :
    ∀ bs : List (List PyStr), (∀ b' ∈ bs, wfHit b' = true) →
      (∀ b' ∈ bs, subject_id b' = aid → bS ≤ subject_start b') →
      innerLoopNB m a aS aSt true bs = Except.ok [] := by
  intro bs
  induction bs with
  | nil => intro _ _; rfl
  | cons b' bs ih =>
    intro hwf hmono
    have hwf' : ∀ x ∈ bs, wfHit x = true := fun x hx => hwf x (List.mem_cons_of_mem _ hx)
    have hmono' : ∀ x ∈ bs, subject_id x = aid → bS ≤ subject_start x :=
      fun x hx => hmono x (List.mem_cons_of_mem _ hx)
    obtain ⟨⟨bid', hb1⟩, hpc⟩ := wfHit_parse (hwf b' (List.mem_cons_self _ _))
    simp only [innerLoopNB, ha, hb1]
    by_cases hid : aid ≠ bid'
    · rw [if_pos hid]
      exact ih hwf' hmono'
    · rw [if_neg hid]
      push_neg at hid
      simp only [hpc]
      have hidb : subject_id b' = aid := by
        unfold subject_id
        rw [hb1]
        exact hid.symm
      have hbSle : bS ≤ subject_start b' := hmono b' (List.mem_cons_self _ _) hidb
      by_cases hdir : (true : Bool) = dirOf (subject_start b') (subject_end b')
      · rw [if_pos hdir]
        exact ih hwf' hmono'
      · rw [if_neg hdir]
        rw [if_pos (show aS < subject_start b' by omega)]
        rw [if_neg (show ¬ (true : Bool) = false by simp)]
        rw [if_pos (show ¬ aSt > subject_start b' - m by omega)]
        exact ih hwf' hmono'

lemma innerLoop_eq_innerLoopNB (m : Int) (a : List PyStr) (aS aSt : Int) (aD : Bool) :
    ∀ bs : List (List PyStr), (∀ b ∈ bs, wfHit b = true) → bs.Pairwise hitLe →
      innerLoop m a aS aSt aD bs = innerLoopNB m a aS aSt aD bs := by
  intro bs
  induction bs with
  | nil => intro _ _; rfl
  | cons b bs ih =>
    intro hwf hsorted
    obtain ⟨hleAll, hsorted'⟩ := List.pairwise_cons.mp hsorted
    have hwf' : ∀ x ∈ bs, wfHit x = true := fun x hx => hwf x (List.mem_cons_of_mem _ hx)
    have ihr := ih hwf' hsorted'
    by_cases hsome : (a[1]?).isSome
    case neg =>
      have ha : a[1]? = none := Option.not_isSome_iff_eq_none.mp hsome
      simp only [innerLoop, innerLoopNB, ha]
    case pos =>
      obtain ⟨aid, ha⟩ := Option.isSome_iff_exists.mp hsome
      obtain ⟨⟨bid, hb1⟩, hpc⟩ := wfHit_parse (hwf b (List.mem_cons_self _ _))
      simp only [innerLoop, innerLoopNB, ha, hb1]
      by_cases hid : aid ≠ bid
      · rw [if_pos hid, if_pos hid]
        exact ihr
      · rw [if_neg hid, if_neg hid]
        simp only [hpc]
        by_cases hdir : aD = dirOf (subject_start b) (subject_end b)
        · rw [if_pos hdir, if_pos hdir]
          exact ihr
        · rw [if_neg hdir, if_neg hdir]
          by_cases hlt : aS < subject_start b
          · rw [if_pos hlt, if_pos hlt]
            by_cases haD : aD = false
            · rw [if_pos haD, if_pos haD]
              exact ihr
            · rw [if_neg haD, if_neg haD]
              by_cases hbr : ¬ aSt > subject_start b - m
              · rw [if_pos hbr, if_pos hbr]
                have haDtrue : aD = true := by
                  cases aD with
                  | true => rfl
                  | false => exact absurd rfl haD
                subst haDtrue
                push_neg at hid
                refine (innerLoopNB_nil_after_break m a aS aSt ha hlt hbr bs hwf' ?_).symm
                intro b' hb' hid'
                apply hitLe_start_le (hleAll b' hb')
                have hsb : subject_id b = aid := by
                  unfold subject_id
                  rw [hb1]
                  exact hid.symm
                rw [hid', hsb]
              · rw [if_neg hbr, if_neg hbr]
                rw [ihr]
          · rw [if_neg hlt, if_neg hlt]
            by_cases hbd : dirOf (subject_start b) (subject_end b) = false
            · rw [if_pos hbd, if_pos hbd]
              exact ihr
            · rw [if_neg hbd, if_neg hbd]
              by_cases hrng : ¬ subject_end b > aS - m
              · rw [if_pos hrng, if_pos hrng]
                exact ihr
              · rw [if_neg hrng, if_neg hrng]
                rw [ihr]

lemma identifyGo_eq_identifyGoNB (m : Int) :
    ∀ hits : List (List PyStr), (∀ h ∈ hits, wfHit h = true) → hits.Pairwise hitLe →
      identifyGo m hits = identifyGoNB m hits := by
  intro hits
  induction hits with
  | nil => intro _ _; rfl
  | cons a rest ih =>
    intro hwf hsorted
    obtain ⟨_, hsorted'⟩ := List.pairwise_cons.mp hsorted
    have hwf' : ∀ x ∈ rest, wfHit x = true := fun x hx => hwf x (List.mem_cons_of_mem _ hx)
    simp only [identifyGo, identifyGoNB]
    by_cases hemp : rest.isEmpty
    · rw [if_pos hemp, if_pos hemp]
    · rw [if_neg hemp, if_neg hemp]
      obtain ⟨_, hpca⟩ := wfHit_parse (hwf a (List.mem_cons_self _ _))
      simp only [hpca]
      rw [innerLoop_eq_innerLoopNB m a _ _ _ rest hwf' hsorted']
      rw [ih hwf' hsorted']

/-- Claim C3: when the input hits are well-formed records sorted
ascending by `(subject_id, subject_start)` — the order `step_one`
establishes — the early exit of Case A (the `break` on line 91 of
ispcr.py) never skips a pair that the exhaustive scan over all index
pairs `i < j` would accept: the pairer computes exactly the same
result as the break-free scan. -/
theorem identify_paired_hits_break_equiv (hits : List (List PyStr)) (m : Int)
    (hwf : ∀ h ∈ hits, wfHit h = true)
    (hsorted : hits.Pairwise hitLe) :
    identify_paired_hits hits m = identify_paired_hits_noBreak hits m :=
  identifyGo_eq_identifyGoNB m hits hwf hsorted

/-- Claim C3 witness: the equivalence evaluated on the sorted
two-hit scenario input. -/
theorem identify_paired_hits_break_equiv_witness :
    identify_paired_hits [fHitC5, rHitC5] 2000 =
      identify_paired_hits_noBreak [fHitC5, rHitC5] 2000 :=
  identify_paired_hits_break_equiv [fHitC5, rHitC5] 2000 (by decide) (by decide)

end Magnumopus
